import Mathlib

/-!
Verification development for the refine-firebase data provider
(src/firebaseProvider.ts and the untitled provider variant).

The provider's client-side query engine (filter evaluation, OR-union,
sort, pagination), its id-allocation strategy and the create path are
embedded as executable Lean definitions over a model of JavaScript
values.  Records fetched from the store are tagged with a reference
identifier (`Rec.ref`) so that the reference-identity semantics of the
JavaScript `Set` used for OR-union deduplication is expressible:
two reference-equal objects are one and the same `Rec`, while
structurally equal but distinct objects differ in their `ref` tag.

Modelling boundaries (noted where relevant):
* JavaScript numbers are modelled as integers (`Int`); fractional,
  exponent and hexadecimal literals, `NaN` produced by arithmetic,
  and `-0` are outside the model.  A string that does not read as an
  optionally-signed decimal integer coerces to `NaN`, modelled as
  `none`.
* Object identity of values nested inside records or filter operands
  is modelled structurally; reference identity is tracked only at the
  record level (`Rec.ref`), which is the only place the source
  dedupes by it.
* Built-in properties of boxed primitives other than `length` are not
  modelled (property access on them yields `undefined`).
-/

namespace RefineFirebase

/-! ### JavaScript string helpers (kernel-reducible replacements) -/

/-- Model of `field.split(".")`: split a string at every dot.
JavaScript `String.prototype.split` with a one-character separator
splits at each occurrence, keeping empty segments. -/
def splitDotAux : List Char → List Char → List String
  | [], acc => [String.mk acc.reverse]
  | c :: rest, acc =>
    if c = '.' then String.mk acc.reverse :: splitDotAux rest []
    else splitDotAux rest (c :: acc)

def splitDot (s : String) : List String := splitDotAux s.data []

/-- Digits of a decimal integer literal; `none` when a non-digit occurs. -/
def digitsToNatAux : List Char → Nat → Option Nat
  | [], acc => some acc
  | c :: rest, acc =>
    if c.isDigit then digitsToNatAux rest (acc * 10 + (c.toNat - 48)) else none

def digitsToNat : List Char → Option Nat
  | [] => none
  | l => digitsToNatAux l 0

/-- Model of JavaScript `ToNumber` on strings, restricted to
optionally-signed decimal integers: surrounding whitespace is ignored,
the empty (or all-whitespace) string is `0`, anything else that is not
a signed decimal integer is `NaN` (`none`).  Fractional, exponent and
hexadecimal forms are outside the model. -/
def strToNumber (s : String) : Option Int :=
  let cs := ((s.data.dropWhile Char.isWhitespace).reverse.dropWhile
      Char.isWhitespace).reverse
  match cs with
  | [] => some 0
  | '-' :: ds => (digitsToNat ds).map (fun n => -(n : Int))
  | '+' :: ds => (digitsToNat ds).map (fun n => (n : Int))
  | ds => (digitsToNat ds).map (fun n => (n : Int))

/-- Decimal digits of a natural number (fuel-driven so that the kernel
can evaluate it; the fuel `n` always suffices since a number has at
most `n` digits). -/
def natToCharsAux : Nat → Nat → List Char → List Char
  | 0, _, acc => acc
  | fuel + 1, n, acc =>
    if n = 0 then acc
    else natToCharsAux fuel (n / 10) (Char.ofNat (48 + n % 10) :: acc)

def natToJsStr (n : Nat) : String :=
  if n = 0 then "0" else String.mk (natToCharsAux n n [])

def intToJsStr (i : Int) : String :=
  if i < 0 then "-" ++ natToJsStr i.natAbs else natToJsStr i.natAbs

/-- Test that `sub` occurs at the start of `l`. -/
def charsStartWith : List Char → List Char → Bool
  | [], _ => true
  | _ :: _, [] => false
  | c :: cs, d :: ds => c = d && charsStartWith cs ds

/-- Model of `String.prototype.includes`: substring occurrence. -/
def charsContain : List Char → List Char → Bool
  | [], sub => sub.isEmpty
  | c :: tl, sub => charsStartWith sub (c :: tl) || charsContain tl sub

def strContains (s sub : String) : Bool := charsContain s.data sub.data

/-- Lexicographic order on code points, the JavaScript `<` on strings. -/
def charsLt : List Char → List Char → Bool
  | [], [] => false
  | [], _ :: _ => true
  | _ :: _, [] => false
  | c :: cs, d :: ds =>
    if c.toNat < d.toNat then true
    else if d.toNat < c.toNat then false
    else charsLt cs ds

def strLt (s t : String) : Bool := charsLt s.data t.data

/-! ### JavaScript values -/

mutual
/-- A JavaScript value as stored in / compared by the provider. -/
inductive Value where
  | vundef : Value
  | vnull : Value
  | vbool (b : Bool) : Value
  | vnum (n : Int) : Value
  | vstr (s : String) : Value
  | varr (elems : ValueList) : Value
  | vobj (fields : FieldList) : Value
  deriving DecidableEq

inductive ValueList where
  | nil : ValueList
  | cons (hd : Value) (tl : ValueList) : ValueList
  deriving DecidableEq

inductive FieldList where
  | nil : FieldList
  | cons (key : String) (val : Value) (tl : FieldList) : FieldList
  deriving DecidableEq
end

open Value

def FieldList.lookup : FieldList → String → Option Value
  | .nil, _ => none
  | .cons k v tl, f => if k = f then some v else tl.lookup f

def ValueList.length : ValueList → Nat
  | .nil => 0
  | .cons _ tl => 1 + tl.length

def ValueList.getIdx : ValueList → Nat → Option Value
  | .nil, _ => none
  | .cons x _, 0 => some x
  | .cons _ tl, n + 1 => tl.getIdx n

def ValueList.anyP (p : Value → Bool) : ValueList → Bool
  | .nil => false
  | .cons x tl => p x || tl.anyP p

mutual
/-- JavaScript `ToString`.  A plain object stringifies to
`"[object Object]"`; an array stringifies to its elements joined by
commas (`Array.prototype.toString`), with `undefined` and `null`
elements contributing the empty string. -/
def Value.toJsStr : Value → String
  | vundef => "undefined"
  | vnull => "null"
  | vbool b => if b then "true" else "false"
  | vnum n => intToJsStr n
  | vstr s => s
  | varr xs => xs.joinStr
  | vobj _ => "[object Object]"

def ValueList.joinStr : ValueList → String
  | .nil => ""
  | .cons x .nil =>
    (match x with
     | vundef => ""
     | vnull => ""
     | y => y.toJsStr)
  | .cons x (.cons y tl) =>
    (match x with
     | vundef => ""
     | vnull => ""
     | z => z.toJsStr) ++ "," ++ ValueList.joinStr (.cons y tl)
end

/-- JavaScript `ToPrimitive` (plain objects and arrays convert through
their `toString`). -/
def toPrimitive (v : Value) : Value :=
  match v with
  | varr xs => vstr xs.joinStr
  | vobj _ => vstr "[object Object]"
  | x => x

/-- JavaScript `ToNumber`.  `undefined` is `NaN` (`none`). -/
def toNumber : Value → Option Int
  | vundef => none
  | vnull => some 0
  | vbool b => some (if b then 1 else 0)
  | vnum n => some n
  | vstr s => strToNumber s
  | varr xs => strToNumber xs.joinStr
  | vobj _ => none

/-- JavaScript truthiness (`!!v`).  `undefined`, `null`, `false`, `0`
and the empty string are falsy; every object and array is truthy. -/
def truthy : Value → Bool
  | vundef => false
  | vnull => false
  | vbool b => b
  | vnum n => decide (n ≠ 0)
  | vstr s => !(s = "")
  | varr _ => true
  | vobj _ => true

/-- Loose equality on number-or-string primitives. -/
def jsEqNumStr : Value → Value → Bool
  | vnum n, vnum m => n = m
  | vstr s, vstr t => s = t
  | vnum n, vstr t =>
    (match strToNumber t with
     | some m => decide (n = m)
     | none => false)
  | vstr s, vnum m =>
    (match strToNumber s with
     | some n => decide (n = m)
     | none => false)
  | _, _ => false

/-- Coerce to a number-or-string primitive for loose comparison:
objects and arrays through `ToPrimitive`, booleans through
`ToNumber`. -/
def normPrim (v : Value) : Value :=
  match toPrimitive v with
  | vbool b => vnum (if b then 1 else 0)
  | x => x

/-- JavaScript loose equality (`==`).  `undefined` and `null` equal
each other and nothing else; two objects compare by identity
(modelled structurally, see the header note); otherwise both sides
coerce to number-or-string primitives. -/
def jsEq (a b : Value) : Bool :=
  match a, b with
  | vundef, vundef => true
  | vundef, vnull => true
  | vnull, vundef => true
  | vnull, vnull => true
  | vundef, _ => false
  | vnull, _ => false
  | _, vundef => false
  | _, vnull => false
  | varr xs, varr ys => xs = ys
  | vobj fs, vobj gs => fs = gs
  | varr _, vobj _ => false
  | vobj _, varr _ => false
  | a, b => jsEqNumStr (normPrim a) (normPrim b)

/-- JavaScript abstract relational comparison (`<`), three-valued:
`none` is the *undefined* outcome (a `NaN` operand).  Two strings
compare lexicographically; otherwise both sides compare as numbers. -/
def jsLtU (a b : Value) : Option Bool :=
  match toPrimitive a, toPrimitive b with
  | vstr s, vstr t => some (strLt s t)
  | pa, pb =>
    (match toNumber pa, toNumber pb with
     | some n, some m => some (decide (n < m))
     | _, _ => none)

/-- JavaScript strict / SameValueZero equality, as used by
`Array.prototype.includes`.  Object operands compare by identity
(modelled structurally, see the header note). -/
def strictEq : Value → Value → Bool
  | vundef, vundef => true
  | vnull, vnull => true
  | vbool a, vbool b => a = b
  | vnum n, vnum m => n = m
  | vstr s, vstr t => s = t
  | varr xs, varr ys => xs = ys
  | vobj fs, vobj gs => fs = gs
  | _, _ => false

/-- Model of `filter.value.includes(value)`: on an array, SameValueZero
membership; on a string, substring test (coercing the argument to a
string); on anything else, `.includes` is not a function and a
TypeError is thrown (`none`). -/
def includesB (operand value : Value) : Option Bool :=
  match operand with
  | varr xs => some (xs.anyP (strictEq value))
  | vstr s => some (strContains s value.toJsStr)
  | _ => none

/-- Model of JavaScript property access `v[f]`.  Accessing a property
of `undefined` or `null` throws a TypeError (`none`); a missing key on
an object yields `undefined`; boxed primitives expose `length` (other
built-in properties are not modelled and yield `undefined`). -/
def jsIndex (v : Value) (f : String) : Option Value :=
  match v with
  | vundef => none
  | vnull => none
  | vobj fields => some ((fields.lookup f).getD vundef)
  | varr xs =>
    if f = "length" then some (vnum xs.length)
    else
      (match digitsToNat f.data with
       | some i => some ((xs.getIdx i).getD vundef)
       | none => some vundef)
  | vstr s => if f = "length" then some (vnum s.length) else some vundef
  | vnum _ => some vundef
  | vbool _ => some vundef

/-! ### Records, filters, sort keys, pagination -/

/-- A record as fetched from the store: its JavaScript value together
with a reference tag modelling object identity.  Two `Rec`s are equal
exactly when they are the same object (same reference); structurally
equal contents under distinct `ref` tags are distinct objects. -/
structure Rec where
  ref : Nat
  val : Value
  deriving DecidableEq

/-- The framework's `CrudFilter`: either a comparison
`{field, operator, value}` or the logical composite
`{operator: "or", value: CrudFilter[]}` (the union type is
discriminated by the operator). -/
inductive CrudFilter where
  | comparison (field operator : String) (value : Value) : CrudFilter
  | compositeOr (children : List CrudFilter) : CrudFilter

/-- One entry of `CrudSorting`: a field name and `"asc"` or `"desc"`. -/
structure SortKey where
  field : String
  order : String

/-- The framework's `Pagination` with its optional fields.  The source only ever uses
them through `pagination?.current || 1` and
`pagination?.pageSize || 10`; they are modelled as nonnegative
integers. -/
structure Pagination where
  current : Option Nat
  pageSize : Option Nat

/-! ### The filter evaluator (`applyFilter`) -/

/-- Walk a dotted field path:
`let value = obj; for (let f of filter.field.split(".")) value = value[f];`.
`none` models the TypeError thrown when a step accesses a property of
`undefined` or `null`. -/
def resolvePath (v : Value) : List String → Option Value
  | [] => some v
  | f :: fs =>
    match jsIndex v f with
    | none => none
    | some v2 => resolvePath v2 fs

/-- The operator dispatch of `applyFilter` (the `switch` on
`filter.operator`): given the resolved field value and the clause
operand, produce the predicate outcome.  `none` models a thrown
TypeError (only possible for `in`/`nin` on a non-array, non-string
operand); any unrecognized operator falls through to `true`. -/
def evalOp (op : String) (value operand : Value) : Option Bool :=
  if op = "eq" then some (jsEq value operand)
  else if op = "ne" then some (!jsEq value operand)
  else if op = "lt" then some ((jsLtU value operand).getD false)
  else if op = "gt" then some ((jsLtU operand value).getD false)
  else if op = "lte" then
    some
      (match jsLtU operand value with
       | some b => !b
       | none => false)
  else if op = "gte" then
    some
      (match jsLtU value operand with
       | some b => !b
       | none => false)
  else if op = "null" then some (!truthy value)
  else if op = "nnull" then some (truthy value)
  else if op = "in" then includesB operand value
  else if op = "nin" then (includesB operand value).map (fun b => !b)
  else some true

/-- The per-record body of `data.filter(...)` inside `applyFilter`:
resolve the dotted path on the record, then apply the operator.
`none` models a thrown TypeError. -/
def recPasses (r : Rec) (field op : String) (operand : Value) : Option Bool :=
  match resolvePath r.val (splitDot field) with
  | none => none
  | some v => evalOp op v operand

/-- Model of `data.filter((obj) => ...)` with the per-record evaluation above;
a throw on any record aborts the whole call. -/
def filterRecs (field op : String) (operand : Value) :
    List Rec → Except Unit (List Rec)
  | [] => .ok []
  | r :: rest =>
    match recPasses r field op operand with
    | none => .error ()
    | some b =>
      match filterRecs field op operand rest with
      | .error e => .error e
      | .ok tl => .ok (if b then r :: tl else tl)

/-- Model of `applyFilter(data, filter)`: returns `undefined` (`none`) when the
filter is an `"or"` composite or the data is `undefined`; otherwise
the filtered array.  The outer `Except` carries a thrown TypeError. -/
def applyFilter (data : Option (List Rec)) (filter : CrudFilter) :
    Except Unit (Option (List Rec)) :=
  match filter with
  | .compositeOr _ => .ok none
  | .comparison field op operand =>
    if op = "or" then .ok none
    else
      match data with
      | none => .ok none
      | some l =>
        match filterRecs field op operand l with
        | .error e => .error e
        | .ok out => .ok (some out)

/-! ### The query engine (`getList`) -/

/-- The `for (let childFilter of filter.value)` loop of the `"or"`
branch: collect `applyFilter(outData, childFilter)` for every child,
aborting on a throw. -/
def childOutsM (outData : Option (List Rec)) :
    List CrudFilter → Except Unit (List (Option (List Rec)))
  | [] => .ok []
  | c :: cs =>
    match applyFilter outData c with
    | .error e => .error e
    | .ok o =>
      match childOutsM outData cs with
      | .error e => .error e
      | .ok rest => .ok (o :: rest)

/-- Insertion-order deduplication: the JavaScript
`new Set([...newOut])` iterated by `forEach` keeps the first
occurrence of each element, comparing records by reference
(`Rec` equality). -/
def setDedup (l : List Rec) : List Rec :=
  l.foldl (fun acc x => if x ∈ acc then acc else acc ++ [x]) []

/-- The `"or"` branch of the filter loop:
`childOut.flat().filter((item) => !!item)` flattens the per-child
arrays, keeping the `undefined` entries of failed children as
elements, and the truthiness filter then removes those `undefined`
entries together with any falsy record; the `Set` union then dedupes
by reference in insertion order. -/
def orStep (outData : Option (List Rec)) (children : List CrudFilter) :
    Except Unit (List Rec) :=
  match childOutsM outData children with
  | .error e => .error e
  | .ok childOut =>
    .ok (setDedup (((childOut.filterMap id).flatten).filter (fun r => truthy r.val)))

/-- The `filters.forEach(...)` loop of `getList`: composite clauses go
through the `"or"` union branch, plain comparisons replace the
candidate set with their `applyFilter` result (which the source keeps
as a possibly-`undefined` array). -/
def filtersLoop (outData : Option (List Rec)) :
    List CrudFilter → Except Unit (Option (List Rec))
  | [] => .ok outData
  | .compositeOr children :: fs =>
    (match orStep outData children with
     | .error e => .error e
     | .ok l => filtersLoop (some l) fs)
  | .comparison field op v :: fs =>
    (match applyFilter outData (.comparison field op v) with
     | .error e => .error e
     | .ok od => filtersLoop od fs)

/-- The filtering phase of `getList`: with no filters the data passes
through; otherwise the loop runs, and if it left `outData` as
`undefined` the subsequent `data.sort` / `data.length` access throws
(`.error`). -/
def filterPhase (data : List Rec) (filters : Option (List CrudFilter)) :
    Except Unit (List Rec) :=
  match filters with
  | none => .ok data
  | some fl =>
    match filtersLoop (some data) fl with
    | .error e => .error e
    | .ok none => .error ()
    | .ok (some l) => .ok l

/-- The sort-key access `a[sort[0].field]` (a single property access,
not a dotted walk), with `undefined` for the out-of-model throwing
case which the sort guard handles separately. -/
def recKey (r : Rec) (f : String) : Value := (jsIndex r.val f).getD vundef

def isNullish : Value → Bool
  | vundef => true
  | vnull => true
  | _ => false

/-- The comparator `(a, b) => a[sort[0].field] < b[sort[0].field] ? -1 : 1`:
`true` means the comparator returns `-1` (a before b); every
non-less-than pair, ties and `NaN` outcomes included, yields `1`. -/
def ltKey (f : String) (a b : Rec) : Bool :=
  (jsLtU (recKey a f) (recKey b f)).getD false

def insertLt (lt : Rec → Rec → Bool) (x : Rec) : List Rec → List Rec
  | [] => [x]
  | y :: ys => if lt x y then x :: y :: ys else y :: insertLt lt x ys

/-- Model of `Array.prototype.sort` with the comparator above
(insertion sort; with this comparator, which never reports a tie, the
relative order of equal keys is implementation-defined in JavaScript,
so any deterministic comparison sort is a faithful model up to tie
order). -/
def jsSortBy (lt : Rec → Rec → Bool) : List Rec → List Rec
  | [] => []
  | x :: xs => insertLt lt x (jsSortBy lt xs)

/-- The sort phase of `getList`: only `sort[0]` is consulted; the list
is sorted ascending with the strict less-than comparator and reversed
afterwards when the direction is `"desc"`.  When at least two records
take part and some record is `undefined`/`null`, the comparator's
property access throws (`.error`). -/
def sortStep (sortKeys : List SortKey) (d : List Rec) : Except Unit (List Rec) :=
  match sortKeys with
  | [] => .ok d
  | k :: _ =>
    if 2 ≤ d.length ∧ d.any (fun r => isNullish r.val) then .error ()
    else
      .ok
        (if k.order = "desc" then (jsSortBy (ltKey k.field) d).reverse
         else jsSortBy (ltKey k.field) d)

/-- Model of `pagination?.current || 1` and `pagination?.pageSize || 10`: the
JavaScript `||` falls back on the default for a missing *or zero*
value. -/
def jsOrDefault (o : Option Nat) (d : Nat) : Nat :=
  match o with
  | none => d
  | some n => if n = 0 then d else n

/-- The pagination tail of `getList`: `total` is taken before slicing,
`start = (current - 1) * pageSize`, `end = current * pageSize`, and
`data.slice(start, end)` is the clipped half-open slice. -/
def paginate (d : List Rec) (pagination : Option Pagination) : List Rec × Nat :=
  let total := d.length
  let current := jsOrDefault (pagination.bind (fun p => p.current)) 1
  let pageSize := jsOrDefault (pagination.bind (fun p => p.pageSize)) 10
  let start := (current - 1) * pageSize
  let stop := current * pageSize
  ((d.drop start).take (stop - start), total)

/-- The pure core of `getList` on an existing snapshot's record list:
filter, sort, paginate.  `.error` models any TypeError thrown along
the way (caught by the enclosing `try`). -/
def getListCore (data : List Rec) (filters : Option (List CrudFilter))
    (sortKeys : List SortKey) (pagination : Option Pagination) :
    Except Unit (List Rec × Nat) :=
  match filterPhase data filters with
  | .error e => .error e
  | .ok d =>
    match sortStep sortKeys d with
    | .error e => .error e
    | .ok sorted => .ok (paginate sorted pagination)

/-! ### The promise layer -/

/-- Outcome of one of the provider's async methods: the promise either
fulfills (with a value, or with `undefined` = `none` when the function
body falls through without returning) or rejects. -/
inductive JsPromise (α : Type) where
  | fulfilled (value : Option α) : JsPromise α
  | rejected : JsPromise α
  deriving DecidableEq

/-- Model of `getList` as observed by a caller.  `fetch` is the store read:
`.error` a rejected `get(...)`, `.ok none` a snapshot with
`exists() = false`, `.ok (some data)` the record list.  In both
failure branches the source builds `Promise.reject(...)` but does not
return or await it, so the async function falls through and the
returned promise *fulfills* with `undefined`. -/
def getListJs (fetch : Except Unit (Option (List Rec)))
    (filters : Option (List CrudFilter)) (sortKeys : List SortKey)
    (pagination : Option Pagination) : JsPromise (List Rec × Nat) :=
  match fetch with
  | .error _ => .fulfilled none
  | .ok none => .fulfilled none
  | .ok (some vals) =>
    match getListCore vals filters sortKeys pagination with
    | .error _ => .fulfilled none
    | .ok res => .fulfilled (some res)

/-- Model of `getOne`, same discarded-rejection structure. -/
def getOneJs (fetch : Except Unit (Option Value)) : JsPromise Value :=
  match fetch with
  | .error _ => .fulfilled none
  | .ok none => .fulfilled none
  | .ok (some v) => .fulfilled (some v)

/-- The `item.id` accesses of `getMany`'s
`snapshot.val().filter((item) => ids.includes(item.id))` and of
`biggestIdPlusOneStrategy`'s `data.map((item) => Number(item.id))`;
`none` models a record whose `id` access throws. -/
def recIdVals : List Rec → Option (List Value)
  | [] => some []
  | r :: rest =>
    match jsIndex r.val "id" with
    | none => none
    | some v => (recIdVals rest).map (fun tl => v :: tl)

/-- Model of `ids.includes(item.id)`: SameValueZero membership in the caller's
id array. -/
def idsIncludes (ids : List Value) (x : Value) : Bool :=
  ids.any (fun i => strictEq i x)

/-- Model of `getMany`, same discarded-rejection structure. -/
def getManyJs (fetch : Except Unit (Option (List Rec))) (ids : List Value) :
    JsPromise (List Rec) :=
  match fetch with
  | .error _ => .fulfilled none
  | .ok none => .fulfilled none
  | .ok (some data) =>
    match recIdVals data with
    | none => .fulfilled none
    | some idvs =>
      .fulfilled
        (some (((data.zip idvs).filter (fun p => idsIncludes ids p.2)).map
          Prod.fst))

/-! ### The default id-allocation strategy -/

/-- Model of `reduce((max, current) => (current > max ? current : max), 0)` over
the coerced ids; a `NaN` coercion (`none`) never beats the
accumulator, exactly as `current > max` is false for `NaN`. -/
def maxNumericId : List (Option Int) → Int → Int
  | [], m => m
  | c :: cs, m =>
    maxNumericId cs
      (match c with
       | some v => if m < v then v else m
       | none => m)

/-- Model of `biggestIdPlusOneStrategy`: reject with `""` when the resource
snapshot does not exist; otherwise one more than the fold above
started at `0`.  (This rejection *is* returned by the source, so it
genuinely rejects.)  `.error "TypeError"` models a thrown `item.id`
access on an `undefined`/`null` element. -/
def biggestIdPlusOneStrategy (snapshot : Option (List Rec)) : Except String Int :=
  match snapshot with
  | none => .error ""
  | some data =>
    match recIdVals data with
    | none => .error "TypeError"
    | some ids => .ok (maxNumericId (ids.map toNumber) 0 + 1)

/-! ### `createData` -/

/-- Object spread followed by an explicit key:
`{...vars, id}` copies `vars` and then defines `id`,
overwriting an existing `id` in place (JavaScript keeps the original
property position) or appending it. -/
def upsertField : FieldList → String → Value → FieldList
  | .nil, k, v => .cons k v .nil
  | .cons k2 v2 tl, k, v =>
    if k2 = k then .cons k v tl else .cons k2 v2 (upsertField tl k v)

/-- Model of `createData` given the outcome of `getCreateId`: on success the
payload `{...vars, id}` is written to `resource/id` (first
component: the stored record) and returned as `{ data: payload }`
(second component).  On an allocation failure the `catch` block's
`Promise.reject(error)` is discarded, nothing is stored, and the
promise fulfills with `undefined`. -/
def createData (alloc : Except String Value) (vars : FieldList) :
    Option FieldList × JsPromise FieldList :=
  match alloc with
  | .error _ => (none, .fulfilled none)
  | .ok idVal =>
    let payload := upsertField vars "id" idVal
    (some payload, .fulfilled (some payload))

/-! ### Spec-side definitions (for the refinement claims) -/

/-- A child clause that is a plain comparison (spec 4.2: the OR
branch's children are dispatched to the Comparison path). -/
def isPlainComparison : CrudFilter → Bool
  | .comparison _ op _ => !(op = "or")
  | .compositeOr _ => false

/-- The per-record Filter Evaluator of spec 4.1, as a partial
predicate: `none` where evaluation is undefined (a Composite clause,
or a thrown path resolution). -/
def clausePasses (r : Rec) : CrudFilter → Option Bool
  | .comparison field op v =>
    if op = "or" then none else recPasses r field op v
  | .compositeOr _ => none

/-- Modelled from the spec (4.2, OR composition): "for each child
clause, evaluate it against the current candidate set ... producing
one subset per child" — the subset of `S` on which the Filter
Evaluator returns true. -/
def specChildSubset (S : List Rec) (c : CrudFilter) : List Rec :=
  S.filter (fun r => (clausePasses r c).getD false)

/-- Modelled from the spec (4.2, OR composition): "take the union of
all child subsets, deduplicated by value identity". -/
def specOrUnion (S : List Rec) (children : List CrudFilter) : List Rec :=
  setDedup ((children.map (specChildSubset S)).flatten)

/-! ### Sample records (shared by concrete statements) -/

def recAge20 : Rec := ⟨0, vobj (.cons "id" (vnum 1) (.cons "age" (vnum 20) .nil))⟩
def recAge30 : Rec := ⟨1, vobj (.cons "id" (vnum 2) (.cons "age" (vnum 30) .nil))⟩
def recAge25 : Rec := ⟨2, vobj (.cons "id" (vnum 3) (.cons "age" (vnum 25) .nil))⟩
/-- Structurally equal to `recDup0` but a distinct object (different
reference tag). -/
def recDup0 : Rec := ⟨0, vobj (.cons "id" (vnum 1) .nil)⟩
def recDup1 : Rec := ⟨1, vobj (.cons "id" (vnum 1) .nil)⟩
def recNegId : Rec := ⟨0, vobj (.cons "id" (vnum (-5)) .nil)⟩
def recEmptyObj : Rec := ⟨0, vobj .nil⟩

/-! ### Shared helper lemmas -/

theorem filterRecs_all_true (field op : String) (w : Value) :
    ∀ data : List Rec, (∀ r ∈ data, recPasses r field op w = some true) →
      filterRecs field op w data = .ok data := by
  intro data
  induction data with
  | nil => intro _; rfl
  | cons r rest ih =>
    intro h
    have hr := h r (by simp)
    have hrest := ih (fun x hx => h x (by simp [hx]))
    simp [filterRecs, hr, hrest]

/-! ### C2 -/

/-- C2 counterexample: on a record lacking a `meta` key, the clause
`meta.flag nnull` does *not* evaluate to false without error — the
path walk reads a property of `undefined` and throws a TypeError,
aborting `applyFilter`. -/
theorem nnull_missing_midpath_throws_cx :
    applyFilter (some [recAge20]) (.comparison "meta.flag" "nnull" vnull) =
      .error () := rfl

theorem resolvePath_append : ∀ (l1 l2 : List String) (v : Value),
    resolvePath v (l1 ++ l2) =
      match resolvePath v l1 with
      | none => none
      | some u => resolvePath u l2 := by
  intro l1
  induction l1 with
  | nil => intro l2 v; rfl
  | cons f fs ih =>
    intro l2 v
    rw [List.cons_append]
    cases h : jsIndex v f with
    | none => simp [resolvePath, h]
    | some v2 => simp [resolvePath, h, ih]

/-- C2 amended: whenever a path segment *before the last* resolves to
`undefined` — a proper prefix of the split path resolves to
`undefined` while at least one segment remains, whether the
intermediate key is missing or stores `undefined`, at any depth — the
filter evaluator throws a TypeError.  Only when the whole path
resolves (so an `undefined` can first appear at the final segment
only) does evaluation proceed without error: the record then passes
`nnull` exactly when the resolved value is truthy, and in particular
a resolved `undefined` evaluates `nnull` to false (the record is
filtered out). -/
theorem path_undefined_nnull_semantics (r : Rec) (field : String)
    (operand : Value) :
    (∀ segs1 seg segs2, splitDot field = segs1 ++ seg :: segs2 →
      resolvePath r.val segs1 = some vundef →
      applyFilter (some [r]) (.comparison field "nnull" operand) =
        .error ()) ∧
    (∀ v, resolvePath r.val (splitDot field) = some v →
      applyFilter (some [r]) (.comparison field "nnull" operand) =
        .ok (some (if truthy v then [r] else [])) ∧
      (v = vundef →
        applyFilter (some [r]) (.comparison field "nnull" operand) =
          .ok (some []))) := by
  constructor
  · intro segs1 seg segs2 hsplit hpre
    have hres : resolvePath r.val (splitDot field) = none := by
      rw [hsplit, resolvePath_append, hpre]
      rfl
    simp [applyFilter, filterRecs, recPasses, hres]
  · intro v hres
    have hpass : recPasses r field "nnull" operand = some (truthy v) := by
      simp [recPasses, hres, evalOp]
    constructor
    · simp [applyFilter, filterRecs, hpass]
    · intro hv
      subst hv
      simp [applyFilter, filterRecs, hpass, truthy]

/-- A record whose `meta` key holds an empty object: the path
`meta.flag` fully resolves, to `undefined` at the final segment. -/
def recMetaEmpty : Rec := ⟨3, vobj (.cons "meta" (vobj .nil) .nil)⟩

/-- A record whose `a` key holds an empty object: on the path `a.b.c`
the proper prefix `a.b` resolves to `undefined` with segment `c`
remaining. -/
def recAEmpty : Rec := ⟨4, vobj (.cons "a" (vobj .nil) .nil)⟩

theorem path_undefined_nnull_semantics_witness :
    resolvePath recMetaEmpty.val (splitDot "meta.flag") = some vundef ∧
    applyFilter (some [recMetaEmpty]) (.comparison "meta.flag" "nnull" vnull) =
      .ok (some []) ∧
    splitDot "a.b.c" = ["a", "b"] ++ "c" :: [] ∧
    resolvePath recAEmpty.val ["a", "b"] = some vundef ∧
    applyFilter (some [recAEmpty]) (.comparison "a.b.c" "nnull" vnull) =
      .error () :=
  ⟨rfl,
    ((path_undefined_nnull_semantics recMetaEmpty "meta.flag" vnull).2 vundef
      rfl).2 rfl,
    rfl, rfl,
    (path_undefined_nnull_semantics recAEmpty "a.b.c" vnull).1 ["a", "b"] "c" []
      rfl rfl⟩

/-! ### C5 -/

/-- C5: the `Promise.reject(...)` calls of `getList` / `getOne` /
`getMany` for a missing resource path or a throwing store call are
built but never returned, so each of these promises *fulfills* with
`undefined` instead of rejecting — the operation silently resolves
with no data. -/
theorem discarded_rejection_fulfills_undefined :
    getListJs (.ok none) none [] none = .fulfilled none ∧
    getListJs (.error ()) none [] none = .fulfilled none ∧
    getOneJs (.ok none) = .fulfilled none ∧
    getOneJs (.error ()) = .fulfilled none ∧
    getManyJs (.ok none) [] = .fulfilled none ∧
    getManyJs (.error ()) [] = .fulfilled none :=
  ⟨rfl, rfl, rfl, rfl, rfl, rfl⟩

/-! ### C6 -/

/-- C6 counterexample: on the one-record collection whose numeric id
is `-5`, the default strategy returns `1`, not one greater than the
maximum numeric id present (`-5 + 1 = -4`) — the fold's initial
accumulator `0` floors the maximum. -/
theorem biggest_id_negative_cx :
    biggestIdPlusOneStrategy (some [recNegId]) = .ok 1 ∧
    jsIndex recNegId.val "id" = some (vnum (-5)) ∧
    toNumber (vnum (-5)) = some (-5) ∧
    (-5 : Int) + 1 ≠ 1 :=
  ⟨rfl, rfl, rfl, by decide⟩

/-! ### C7 -/

/-- C7: when the field path fully resolves, the `eq` operator holds
exactly when the resolved value equals the operand under JavaScript
loose equality, and `ne` is its negation; loose equality coerces
(`"0" == 0`) where strict identity does not. -/
theorem eq_ne_loose_equality (r : Rec) (field : String) (operand v : Value)
    (hres : resolvePath r.val (splitDot field) = some v) :
    recPasses r field "eq" operand = some (jsEq v operand) ∧
    recPasses r field "ne" operand = some (!jsEq v operand) ∧
    jsEq (vstr "0") (vnum 0) = true ∧
    strictEq (vstr "0") (vnum 0) = false := by
  refine ⟨?_, ?_, by decide, by decide⟩
  · simp [recPasses, hres, evalOp]
  · simp [recPasses, hres, evalOp]

theorem eq_ne_loose_equality_witness :
    resolvePath recAge20.val (splitDot "age") = some (vnum 20) ∧
    recPasses recAge20 "age" "eq" (vnum 20) = some (jsEq (vnum 20) (vnum 20)) :=
  ⟨rfl, (eq_ne_loose_equality recAge20 "age" (vnum 20) (vnum 20) rfl).1⟩

/-! ### C8 -/

/-- C8 counterexample: an unrecognized operator does not make the
evaluator total — the path walk still runs, so `contains` on path
`a.b` over the empty record throws instead of leaving the set
unchanged. -/
theorem unrecognized_op_throws_cx :
    applyFilter (some [recEmptyObj]) (.comparison "a.b" "contains" (vstr "x")) =
      .error () := rfl

/-- C8 amended: a clause whose operator is unrecognized evaluates to
true for every record *on which the field path walk does not throw*;
when every record's path resolves, the candidate set is unchanged. -/
theorem unrecognized_op_no_filtering (field op : String) (w : Value)
    (data : List Rec)
    (hop : op ≠ "eq" ∧ op ≠ "ne" ∧ op ≠ "lt" ∧ op ≠ "gt" ∧ op ≠ "lte" ∧
      op ≠ "gte" ∧ op ≠ "null" ∧ op ≠ "nnull" ∧ op ≠ "in" ∧ op ≠ "nin" ∧
      op ≠ "or")
    (hres : ∀ r ∈ data, (resolvePath r.val (splitDot field)).isSome) :
    applyFilter (some data) (.comparison field op w) = .ok (some data) := by
  obtain ⟨h1, h2, h3, h4, h5, h6, h7, h8, h9, h10, h11⟩ := hop
  have hev : ∀ v, evalOp op v w = some true := by
    intro v
    simp [evalOp, h1, h2, h3, h4, h5, h6, h7, h8, h9, h10]
  have hpass : ∀ r ∈ data, recPasses r field op w = some true := by
    intro r hr
    obtain ⟨v, hv⟩ := Option.isSome_iff_exists.mp (hres r hr)
    simp [recPasses, hv, hev]
  simp [applyFilter, h11, filterRecs_all_true field op w data hpass]

theorem unrecognized_op_no_filtering_witness :
    applyFilter (some [recAge20]) (.comparison "age" "contains" (vstr "x")) =
      .ok (some [recAge20]) :=
  unrecognized_op_no_filtering "age" "contains" (vstr "x") [recAge20]
    (by decide) (by decide)

/-! ### C10 -/

/-- C10: a successful create writes `{...variables, id}` to the store
and returns the same payload in the response envelope; the `id` key
placed after the spread overrides any caller-supplied id, so the
stored record's id is the allocated one. -/
theorem lookup_upsertField (k0 : String) (idVal : Value) :
    ∀ fl : FieldList, (upsertField fl k0 idVal).lookup k0 = some idVal
  | .nil => by simp [upsertField, FieldList.lookup]
  | .cons k v tl => by
    by_cases h : k = k0
    · simp [upsertField, h, FieldList.lookup]
    · simp [upsertField, h, FieldList.lookup, lookup_upsertField k0 idVal tl]

theorem create_overrides_id (vars : FieldList) (idVal : Value) :
    createData (.ok idVal) vars =
      (some (upsertField vars "id" idVal),
        .fulfilled (some (upsertField vars "id" idVal))) ∧
    (upsertField vars "id" idVal).lookup "id" = some idVal :=
  ⟨rfl, lookup_upsertField "id" idVal vars⟩

/-! ### C9 / C1: the OR branch -/

theorem childOutsM_append (d : Option (List Rec)) :
    ∀ l1 l2, childOutsM d (l1 ++ l2) =
      match childOutsM d l1 with
      | .error e => .error e
      | .ok a =>
        match childOutsM d l2 with
        | .error e => .error e
        | .ok b => .ok (a ++ b) := by
  intro l1
  induction l1 with
  | nil =>
    intro l2
    cases h : childOutsM d l2 <;> simp [childOutsM, h]
  | cons c cs ih =>
    intro l2
    rw [List.cons_append]
    simp only [childOutsM]
    rw [ih l2]
    cases applyFilter d c <;> cases childOutsM d cs <;>
      cases childOutsM d l2 <;> simp

/-- C9: a child of a top-level OR composite that is itself an `"or"`
composite makes `applyFilter` return `undefined`; that entry is
dropped by the `!!item` filter before the union, so the child
contributes no records and raises no error — the OR result is the
same as without that child. -/
theorem nested_or_child_discarded (d : Option (List Rec))
    (cs1 cs2 kids : List CrudFilter) :
    orStep d (cs1 ++ .compositeOr kids :: cs2) = orStep d (cs1 ++ cs2) := by
  unfold orStep
  rw [childOutsM_append d cs1 (.compositeOr kids :: cs2),
    childOutsM_append d cs1 cs2]
  cases hA : childOutsM d cs1 with
  | error e => rfl
  | ok a =>
    have hcons : childOutsM d (CrudFilter.compositeOr kids :: cs2) =
        match childOutsM d cs2 with
        | .error e => .error e
        | .ok b => (.ok (none :: b) : Except Unit (List (Option (List Rec)))) := by
      cases h : childOutsM d cs2 <;> simp [childOutsM, applyFilter, h]
    rw [hcons]
    cases hB : childOutsM d cs2 with
    | error e => rfl
    | ok b => simp [List.filterMap_append]

theorem filterRecs_eq_filter (field op : String) (w : Value) :
    ∀ data : List Rec, (∀ r ∈ data, (recPasses r field op w).isSome) →
      filterRecs field op w data =
        .ok (data.filter (fun r => (recPasses r field op w).getD false)) := by
  intro data
  induction data with
  | nil => intro _; rfl
  | cons r rest ih =>
    intro h
    obtain ⟨b, hb⟩ := Option.isSome_iff_exists.mp (h r (by simp))
    have hrest := ih (fun x hx => h x (by simp [hx]))
    simp only [filterRecs, hb, hrest, List.filter_cons, Option.getD_some]

theorem applyFilter_comparison_ok (field op : String) (w : Value) (S : List Rec)
    (hop : ¬ op = "or") (h : ∀ r ∈ S, (recPasses r field op w).isSome) :
    applyFilter (some S) (.comparison field op w) =
      .ok (some (S.filter (fun r => (recPasses r field op w).getD false))) := by
  simp [applyFilter, hop, filterRecs_eq_filter field op w S h]

theorem childOutsM_comparisons (S : List Rec) :
    ∀ children : List CrudFilter,
      (∀ c ∈ children, isPlainComparison c = true) →
      (∀ c ∈ children, ∀ r ∈ S, (clausePasses r c).isSome) →
      childOutsM (some S) children =
        .ok (List.map some (children.map (fun c => specChildSubset S c))) := by
  intro children
  induction children with
  | nil => intro _ _; rfl
  | cons c cs ih =>
    intro hcomp hok
    cases c with
    | compositeOr kids =>
      have := hcomp (CrudFilter.compositeOr kids) (List.mem_cons_self _ _)
      simp [isPlainComparison] at this
    | comparison f op v =>
      have hop : ¬ op = "or" := by
        have := hcomp (CrudFilter.comparison f op v) (List.mem_cons_self _ _)
        simpa [isPlainComparison] using this
      have hS : ∀ r ∈ S, (recPasses r f op v).isSome := by
        intro r hr
        have := hok (CrudFilter.comparison f op v) (List.mem_cons_self _ _) r hr
        simpa [clausePasses, hop] using this
      have happ := applyFilter_comparison_ok f op v S hop hS
      have hrest := ih (fun x hx => hcomp x (List.mem_cons_of_mem _ hx))
        (fun x hx => hok x (List.mem_cons_of_mem _ hx))
      simp [childOutsM, happ, hrest, specChildSubset, clausePasses, hop]

/-- C1: a top-level OR clause whose children are plain comparisons
(and whose evaluation does not throw, over records which are objects)
computes exactly the spec's union: each child is applied to the
current candidate set independently, the child subsets are
concatenated, and the result is deduplicated by reference identity —
a record listed twice (the same object) collapses to one entry, while
structurally equal but distinct objects both remain. -/
theorem or_union_refines_spec (S : List Rec) (children : List CrudFilter)
    (hcomp : ∀ c ∈ children, isPlainComparison c = true)
    (hok : ∀ c ∈ children, ∀ r ∈ S, (clausePasses r c).isSome)
    (htruthy : ∀ r ∈ S, truthy r.val = true) :
    orStep (some S) children = .ok (specOrUnion S children) ∧
    setDedup [recDup0, recDup1, recDup0] = [recDup0, recDup1] ∧
    recDup0.val = recDup1.val ∧ recDup0 ≠ recDup1 := by
  refine ⟨?_, by decide, by decide, by decide⟩
  have h1 : ∀ L : List (List Rec), List.filterMap id (List.map some L) = L := by
    intro L
    induction L with
    | nil => rfl
    | cons x xs ih => simp [ih]
  have h2 : ((children.map (fun c => specChildSubset S c)).flatten).filter
      (fun r => truthy r.val) =
      (children.map (fun c => specChildSubset S c)).flatten := by
    apply List.filter_eq_self.mpr
    intro r hr
    obtain ⟨l, hl, hrl⟩ := List.mem_flatten.mp hr
    obtain ⟨c, _, rfl⟩ := List.mem_map.mp hl
    exact htruthy r (List.mem_of_mem_filter hrl)
  unfold orStep
  rw [childOutsM_comparisons S children hcomp hok]
  show Except.ok (setDedup ((List.filterMap id
      (List.map some (children.map (fun c => specChildSubset S c)))).flatten.filter
      (fun r => truthy r.val))) = Except.ok (specOrUnion S children)
  rw [h1, h2]
  rfl

theorem or_union_refines_spec_witness :
    orStep (some [recAge20, recAge30, recAge25])
      [.comparison "age" "lt" (vnum 21), .comparison "age" "gt" (vnum 28)] =
      .ok (specOrUnion [recAge20, recAge30, recAge25]
        [.comparison "age" "lt" (vnum 21), .comparison "age" "gt" (vnum 28)]) :=
  (or_union_refines_spec [recAge20, recAge30, recAge25]
    [.comparison "age" "lt" (vnum 21), .comparison "age" "gt" (vnum 28)]
    (by decide) (by decide) (by decide)).1

/-! ### C3: pagination -/

theorem paginate_eval (d : List Rec) (K P : Nat) (hK : 1 ≤ K) (hP : 1 ≤ P) :
    paginate d (some ⟨some K, some P⟩) = ((d.drop ((K - 1) * P)).take P, d.length) := by
  obtain ⟨k, rfl⟩ : ∃ k, K = k + 1 := ⟨K - 1, by omega⟩
  have hP0 : ¬ P = 0 := by omega
  have hKP : (k + 1) * P - k * P = P := by
    have h : (k + 1) * P = k * P + P := by rw [Nat.add_mul, Nat.one_mul]
    omega
  simp [paginate, jsOrDefault, hP0, Nat.add_sub_cancel, hKP]

theorem slices_flatten (P : Nat) (_hP : 1 ≤ P) :
    ∀ (n : Nat) (d : List Rec), d.length ≤ n * P →
      ((List.range n).map (fun i => (d.drop (i * P)).take P)).flatten = d := by
  intro n
  induction n with
  | zero =>
    intro d hd
    rw [Nat.zero_mul] at hd
    rw [List.length_eq_zero.mp (Nat.le_zero.mp hd)]
    rfl
  | succ n ih =>
    intro d hd
    have hmul : (n + 1) * P = n * P + P := by rw [Nat.add_mul, Nat.one_mul]
    rw [List.range_succ_eq_map, List.map_cons, List.map_map, List.flatten_cons]
    have hfun : ((fun i => List.take P (List.drop (i * P) d)) ∘ Nat.succ) =
        (fun i => List.take P (List.drop (i * P) (List.drop P d))) := by
      funext i
      have hs : Nat.succ i * P = i * P + P := Nat.succ_mul i P
      show List.take P (List.drop (Nat.succ i * P) d) = _
      rw [List.drop_drop, hs, Nat.add_comm]
    rw [hfun]
    simp only [Nat.zero_mul, List.drop_zero]
    rw [ih (List.drop P d) (by rw [List.length_drop]; omega)]
    exact List.take_append_drop P d

theorem le_ceil_mul (N P : Nat) (hP : 1 ≤ P) : N ≤ ((N + P - 1) / P) * P := by
  have h := Nat.div_add_mod (N + P - 1) P
  have hr : (N + P - 1) % P < P := Nat.mod_lt _ (by omega)
  rw [Nat.mul_comm] at h
  generalize (N + P - 1) / P * P = m at h ⊢
  omega

/-- C3: for page index `K ≥ 1` and page size `P ≥ 1` the engine
returns the half-open slice `[(K-1)P, KP)` clipped to the set (an
empty or short final page comes back normally, not as an error), of
size `min P (N - (K-1)P)`; the concatenation of pages `1..⌈N/P⌉`
rebuilds the whole set; the reported total is the pre-pagination
size; absent pagination defaults to page 1 of size 10. -/
theorem pagination_slice_spec (d : List Rec) (K P : Nat) (hK : 1 ≤ K) (hP : 1 ≤ P) :
    paginate d (some ⟨some K, some P⟩) = ((d.drop ((K - 1) * P)).take P, d.length) ∧
    ((paginate d (some ⟨some K, some P⟩)).1).length =
      min P (d.length - (K - 1) * P) ∧
    ((List.range ((d.length + P - 1) / P)).map
      (fun i => (paginate d (some ⟨some (i + 1), some P⟩)).1)).flatten = d ∧
    (paginate d (some ⟨some K, some P⟩)).2 = d.length ∧
    paginate d none = (d.take 10, d.length) ∧
    getListCore d none [] (some ⟨some K, some P⟩) =
      .ok (paginate d (some ⟨some K, some P⟩)) := by
  refine ⟨paginate_eval d K P hK hP, ?_, ?_, ?_, ?_, rfl⟩
  · rw [paginate_eval d K P hK hP]
    simp [List.length_take, List.length_drop]
  · have hfun : (fun i => (paginate d (some ⟨some (i + 1), some P⟩)).1) =
        (fun i => (d.drop (i * P)).take P) := by
      funext i
      rw [paginate_eval d (i + 1) P (by omega) hP]
      simp [Nat.add_sub_cancel]
    rw [hfun]
    exact slices_flatten P hP _ d (le_ceil_mul d.length P hP)
  · rw [paginate_eval d K P hK hP]
  · simp [paginate, jsOrDefault]

theorem pagination_slice_spec_witness :
    (1 : Nat) ≤ 2 ∧
    paginate [recAge20, recAge30, recAge25] (some ⟨some 2, some 2⟩) =
      (([recAge20, recAge30, recAge25].drop ((2 - 1) * 2)).take 2,
        ([recAge20, recAge30, recAge25] : List Rec).length) :=
  ⟨by decide,
    (pagination_slice_spec [recAge20, recAge30, recAge25] 2 2 (by decide)
      (by decide)).1⟩

/-! ### C4: sorting -/

theorem insertLt_perm (lt : Rec → Rec → Bool) (x : Rec) :
    ∀ l : List Rec, (insertLt lt x l).Perm (x :: l) := by
  intro l
  induction l with
  | nil => exact List.Perm.refl _
  | cons y ys ih =>
    by_cases h : lt x y
    · simp [insertLt, h]
    · simp only [insertLt, h, if_neg, Bool.false_eq_true, ite_false]
      exact (ih.cons y).trans (List.Perm.swap x y ys)

theorem jsSortBy_perm (lt : Rec → Rec → Bool) :
    ∀ l : List Rec, (jsSortBy lt l).Perm l := by
  intro l
  induction l with
  | nil => exact List.Perm.refl _
  | cons x xs ih =>
    exact (insertLt_perm lt x (jsSortBy lt xs)).trans (ih.cons x)

/-- C4: only the first sort key is applied (any further keys are
ignored); the comparator is a strict less-than on the two records'
values at that field which treats every non-less pair — ties
included — as not-less; a descending direction reverses the
ascending-sorted sequence as a whole; and the sorted output is a
permutation of the input. -/
theorem sort_first_key_desc_reverse (k : SortKey) (rest : List SortKey)
    (f : String) (d : List Rec) :
    sortStep (k :: rest) d = sortStep [k] d ∧
    sortStep (⟨f, "desc"⟩ :: rest) d = (sortStep [⟨f, "asc"⟩] d).map List.reverse ∧
    (∀ a b : Rec, ltKey f a b = true ↔ jsLtU (recKey a f) (recKey b f) = some true) ∧
    (∀ l, sortStep (k :: rest) d = .ok l → l.Perm d) := by
  refine ⟨rfl, ?_, ?_, ?_⟩
  · simp only [sortStep]
    by_cases h : 2 ≤ d.length ∧ d.any (fun r => isNullish r.val)
    · rw [if_pos h, if_pos h]
      rfl
    · rw [if_neg h, if_neg h]
      simp [Except.map]
  · intro a b
    unfold ltKey
    cases h : jsLtU (recKey a f) (recKey b f) <;> simp [h]
  · intro l hl
    unfold sortStep at hl
    by_cases h : 2 ≤ d.length ∧ d.any (fun r => isNullish r.val)
    · simp [h] at hl
    · simp only [h, if_neg, ite_false] at hl
      by_cases hd : k.order = "desc"
      · simp only [hd, if_pos, ite_true] at hl
        rw [← (Except.ok.injEq _ _).mp hl]
        exact (List.reverse_perm _).trans (jsSortBy_perm _ d)
      · simp only [hd, if_neg, ite_false] at hl
        rw [← (Except.ok.injEq _ _).mp hl]
        exact jsSortBy_perm _ d

theorem sort_first_key_desc_reverse_witness :
    sortStep [⟨"age", "asc"⟩, ⟨"id", "desc"⟩] [recAge30, recAge20] =
      sortStep [⟨"age", "asc"⟩] [recAge30, recAge20] ∧
    ([recAge20, recAge30] : List Rec).Perm [recAge30, recAge20] :=
  ⟨(sort_first_key_desc_reverse ⟨"age", "asc"⟩ [⟨"id", "desc"⟩] "age"
      [recAge30, recAge20]).1,
    (sort_first_key_desc_reverse ⟨"age", "asc"⟩ [⟨"id", "desc"⟩] "age"
      [recAge30, recAge20]).2.2.2 [recAge20, recAge30] rfl⟩

/-! ### C6 amended -/

theorem maxNumericId_le_self : ∀ (l : List (Option Int)) (m : Int),
    m ≤ maxNumericId l m := by
  intro l
  induction l with
  | nil => intro m; exact le_refl m
  | cons c cs ih =>
    intro m
    have h1 : m ≤ (match c with
        | some v => if m < v then v else m
        | none => m) := by
      cases c with
      | none => exact le_refl m
      | some v =>
        show m ≤ if m < v then v else m
        split <;> omega
    exact le_trans h1 (ih _)

theorem maxNumericId_ub : ∀ (l : List (Option Int)) (m v : Int),
    some v ∈ l → v ≤ maxNumericId l m := by
  intro l
  induction l with
  | nil => intro m v h; simp at h
  | cons c cs ih =>
    intro m v h
    rcases List.mem_cons.mp h with hv | hv
    · subst hv
      refine le_trans ?_ (maxNumericId_le_self cs _)
      show v ≤ if m < v then v else m
      split <;> omega
    · exact ih _ v hv

theorem maxNumericId_attained : ∀ (l : List (Option Int)) (m : Int),
    maxNumericId l m = m ∨ some (maxNumericId l m) ∈ l := by
  intro l
  induction l with
  | nil => intro m; exact Or.inl rfl
  | cons c cs ih =>
    intro m
    cases c with
    | none =>
      rcases ih m with h | h
      · exact Or.inl h
      · exact Or.inr (List.mem_cons_of_mem _ h)
    | some v =>
      by_cases hmv : m < v
      · have heq : maxNumericId (some v :: cs) m = maxNumericId cs v := by
          show maxNumericId cs (if m < v then v else m) = _
          rw [if_pos hmv]
        rcases ih v with h | h
        · exact Or.inr (List.mem_cons.mpr (Or.inl (by rw [heq, h])))
        · exact Or.inr (List.mem_cons_of_mem _ (by rw [heq]; exact h))
      · have heq : maxNumericId (some v :: cs) m = maxNumericId cs m := by
          show maxNumericId cs (if m < v then v else m) = _
          rw [if_neg hmv]
        rcases ih m with h | h
        · exact Or.inl (heq.trans h)
        · exact Or.inr (List.mem_cons_of_mem _ (by rw [heq]; exact h))

theorem recIdVals_mem_rev : ∀ (data : List Rec) (ids : List Value),
    recIdVals data = some ids →
    (∀ x ∈ ids, ∃ r ∈ data, jsIndex r.val "id" = some x) ∧
    (∀ r ∈ data, ∃ x ∈ ids, jsIndex r.val "id" = some x) := by
  intro data
  induction data with
  | nil =>
    intro ids h
    simp only [recIdVals, Option.some.injEq] at h
    subst h
    exact ⟨fun x hx => absurd hx (by simp), fun r hr => absurd hr (by simp)⟩
  | cons r rest ih =>
    intro ids h
    simp only [recIdVals] at h
    cases hj : jsIndex r.val "id" with
    | none => rw [hj] at h; simp at h
    | some v =>
      rw [hj] at h
      cases hrest : recIdVals rest with
      | none => rw [hrest] at h; simp at h
      | some tl =>
        rw [hrest] at h
        simp only [Option.map_some', Option.some.injEq] at h
        subst h
        obtain ⟨h1, h2⟩ := ih tl hrest
        constructor
        · intro x hx
          rcases List.mem_cons.mp hx with rfl | hx
          · exact ⟨r, List.mem_cons_self _ _, hj⟩
          · obtain ⟨r2, hr2, hx2⟩ := h1 x hx
            exact ⟨r2, List.mem_cons_of_mem _ hr2, hx2⟩
        · intro r2 hr2
          rcases List.mem_cons.mp hr2 with rfl | hr2
          · exact ⟨v, List.mem_cons_self _ _, hj⟩
          · obtain ⟨x, hx, hxx⟩ := h2 r2 hr2
            exact ⟨x, List.mem_cons_of_mem _ hx, hxx⟩

/-- C6 amended: the default strategy returns one greater than the
maximum of *zero and* the records' coerced numeric ids (an id that
coerces to `NaN` never beats the accumulator): the result minus one
bounds every record's numeric id from above and is either `0` (result
`1`) or one of the records' numeric ids. -/
theorem biggest_id_max_with_zero_floor (data : List Rec) (out : Int)
    (h : biggestIdPlusOneStrategy (some data) = .ok out) :
    (∀ r ∈ data, ∀ idv, jsIndex r.val "id" = some idv →
      ∀ m : Int, toNumber idv = some m → m + 1 ≤ out) ∧
    (out = 1 ∨ ∃ r ∈ data, ∃ idv, jsIndex r.val "id" = some idv ∧
      toNumber idv = some (out - 1)) := by
  have h2 : (match recIdVals data with
      | none => (Except.error "TypeError" : Except String Int)
      | some ids => Except.ok (maxNumericId (List.map toNumber ids) 0 + 1)) =
      Except.ok out := h
  clear h
  cases hiv : recIdVals data with
  | none => rw [hiv] at h2; exact absurd h2 (by simp)
  | some ids =>
    rw [hiv] at h2
    simp only [Except.ok.injEq] at h2
    obtain ⟨hfwd, hbwd⟩ := recIdVals_mem_rev data ids hiv
    constructor
    · intro r hr idv hidv m hm
      obtain ⟨x, hx, hxx⟩ := hbwd r hr
      have hxi : x = idv := Option.some.inj (hxx.symm.trans hidv)
      subst hxi
      have hmem : some m ∈ ids.map toNumber := List.mem_map.mpr ⟨x, hx, hm⟩
      have := maxNumericId_ub (ids.map toNumber) 0 m hmem
      omega
    · rcases maxNumericId_attained (ids.map toNumber) 0 with hz | hmem
      · left; omega
      · right
        obtain ⟨idv, hidv, hnum⟩ := List.mem_map.mp hmem
        obtain ⟨r, hr, hrx⟩ := hfwd idv hidv
        refine ⟨r, hr, idv, hrx, ?_⟩
        rw [hnum]
        congr 1
        omega

theorem biggest_id_max_with_zero_floor_witness :
    biggestIdPlusOneStrategy (some [recAge20, recAge30]) = .ok 3 ∧
    ((3 : Int) = 1 ∨ ∃ r ∈ [recAge20, recAge30], ∃ idv,
      jsIndex r.val "id" = some idv ∧ toNumber idv = some (3 - 1)) :=
  ⟨rfl, (biggest_id_max_with_zero_floor [recAge20, recAge30] 3 rfl).2⟩

end RefineFirebase
